import Mathlib

/-!
Verification of the HPone manifest-to-deployment pipeline.

This file shallowly embeds the core functions of the repository in Lean:
field parsing for ports/volumes/env (`hpone/core/config.py`), the
environment-variable namespacer (`helpers/utils.py` / `manage.py`),
`.env` generation and compose rewriting (`hpone/core/config.py`), the
data-directory safe remover (`hpone/scripts/file_ops.py`) and the
ephemeral subprocess runner (`hpone/core/log_runner.py`), and proves or
refutes the specified properties about them.

Loosely-typed YAML/Python values are modelled by `PyVal`; strings are
Lean `String`s read as sequences of characters (the model covers the
ASCII behaviour of the Python `str.upper`/`str.strip`; the textual `repr`
of nested containers is abbreviated, no claim depends on it).
-/

set_option linter.unusedVariables false

namespace HPone

/-- Model of a loosely-typed Python/YAML scalar or container value.
`none` is the Python `None`. Booleans do not occur in the fields the
verified functions read and are not modelled. -/
inductive PyVal where
  | none
  | str (s : String)
  | int (n : Int)
  | list (xs : List PyVal)
  | dict (xs : List (PyVal × PyVal))

/-- Python truthiness: `None`, `0`, empty strings and empty containers
are falsy; everything else is truthy. -/
def pyTruthy : PyVal → Bool
  | .none => false
  | .str s => s ≠ ""
  | .int n => n ≠ 0
  | .list xs => ¬ xs.isEmpty
  | .dict xs => ¬ xs.isEmpty

/-- Test for Python `None` (the `is not None` check). -/
def isNone : PyVal → Bool
  | .none => true
  | _ => false

/-- Test for `isinstance(v, dict)`. -/
def isDictV : PyVal → Bool
  | .dict _ => true
  | _ => false

/-- the Python `repr` of a value, as it appears inside error messages.
Scalars are rendered exactly; the rendering of nested containers is
abbreviated in the model (no verified property inspects it). -/
def reprPyVal : PyVal → String
  | .none => "None"
  | .str s => "\x27" ++ s ++ "\x27"
  | .int n => toString n
  | .list _ => "[...]"
  | .dict _ => "\x7b...\x7d"

/-- the Python `str()` of a value. -/
def pyStr : PyVal → String
  | .none => "None"
  | .str s => s
  | .int n => toString n
  | .list xs => reprPyVal (.list xs)
  | .dict xs => reprPyVal (.dict xs)

/-- the Python short-circuit `or`: the left operand if it is truthy,
otherwise the right operand. -/
def pyOr (a b : PyVal) : PyVal :=
  if pyTruthy a then a else b

/-- Characters removed by the Python `str.strip()` with no argument. -/
def isPySpace (c : Char) : Bool :=
  c = ' ' || c = '\t' || c = '\n' || c = '\r' || c = '\x0b' || c = '\x0c'

/-- Membership in the character class `[A-Z0-9]`. -/
def isUpperAlnum (c : Char) : Bool :=
  ('A' ≤ c && c ≤ 'Z') || ('0' ≤ c && c ≤ '9')

/-- Drop the longest suffix of `l` whose elements satisfy `p`. -/
def dropTrail {α : Type} (p : α → Bool) (l : List α) : List α :=
  (l.reverse.dropWhile p).reverse

/-- Strip elements satisfying `p` from both ends of `l`
(the Python `str.strip` on a character class). -/
def stripWhile {α : Type} (p : α → Bool) (l : List α) : List α :=
  dropTrail p (l.dropWhile p)

/-- Replace every maximal run of characters outside `[A-Z0-9]` by a
single underscore: the action of `re.sub(r"[^A-Z0-9]+", "_", ·)`.
The flag records whether the previous character was part of such a run
(its underscore has already been emitted). -/
def collapseRuns : Bool → List Char → List Char
  | _, [] => []
  | inRun, c :: rest =>
    if isUpperAlnum c then c :: collapseRuns false rest
    else if inRun then collapseRuns true rest
    else '_' :: collapseRuns true rest

/-- Embedding of `to_var_prefix` from `helpers/utils.py` (identical in
`manage.py`): `tool_name.strip().upper()` followed by
`re.sub(r"[^A-Z0-9]+", "_", ·).strip("_")`. the Python `str.upper` is
modelled on its ASCII behaviour by `Char.toUpper`. -/
def to_var_prefix (s : String) : String :=
  let stripped := stripWhile isPySpace s.data
  let upper := stripped.map Char.toUpper
  String.mk (stripWhile (fun c => c = '_') (collapseRuns false upper))

/-- Embedding of the env-key sanitizer used by `generate_env_file` and
`rewrite_compose_with_env` in `hpone/core/config.py`:
`re.sub(r"[^A-Z0-9]+", "_", str(k).upper()).strip("_")`. -/
def sanitizeEnvKey (s : String) : String :=
  String.mk (stripWhile (fun c => c = '_') (collapseRuns false (s.data.map Char.toUpper)))

/-- the Python `str.strip()` on a string. -/
def pyStrip (s : String) : String :=
  String.mk (stripWhile isPySpace s.data)

/-! Python dictionaries are modelled by insertion-ordered association
lists: assignment to an existing key replaces the value in place,
assignment to a fresh key appends at the end. -/

/-- Lookup in an insertion-ordered dictionary. -/
def lookupD {α : Type} : List (String × α) → String → Option α
  | [], _ => Option.none
  | (k', v) :: t, k => if k' = k then some v else lookupD t k

/-- Python dict assignment `d[k] = v`: replace in place or append. -/
def setD {α : Type} : List (String × α) → String → α → List (String × α)
  | [], k, v => [(k, v)]
  | (k', v') :: t, k, v =>
    if k' = k then (k', v) :: t else (k', v') :: setD t k v

/-- Sequence of dict assignments, one per entry of `m`, in order. -/
def setMany {α : Type} (d m : List (String × α)) : List (String × α) :=
  m.foldl (fun acc kv => setD acc kv.1 kv.2) d

/-- Keys of a dictionary, in order. -/
def keysOf {α : Type} (d : List (String × α)) : List String :=
  d.map Prod.fst

/-- Entries an entry of the manifest `ports:` / `volumes:` sequences can
take: a record (each of the six recognized keys modelled by the value
`entry.get(key)` returns, `PyVal.none` when absent), a plain string, or
a value of any other type. -/
inductive Entry where
  | edict (host container src dst source destination : PyVal)
  | estr (s : String)
  | eother

/-- the Python `repr` of a sequence entry, as interpolated into the
`Unrecognized ... format:` error messages. Record entries are rendered
in abbreviated form (no verified property inspects their text). -/
def reprEntry : Entry → String
  | .estr s => "\x27" ++ s ++ "\x27"
  | .edict _ _ _ _ _ _ => "\x7b...\x7d"
  | .eother => "<entry>"

/-- Split a character list at the first occurrence of `ch`
(the Python `s.split(ch, 1)` when `ch` occurs in `s`). -/
def splitAtFirst (ch : Char) : List Char → (List Char × List Char)
  | [] => ([], [])
  | c :: rest =>
    if c = ch then ([], rest)
    else
      let p := splitAtFirst ch rest
      (c :: p.1, p.2)

/-- Test for `":" in s`. -/
def hasColon (s : String) : Bool :=
  s.data.any (fun c => c = ':')

/-- Embedding of one iteration of the loop in `parse_ports`
(`hpone/core/config.py`): a record entry looks up
`host`/`src`/`source` and `container`/`dst`/`destination` through
Python `or`-chains, a string entry containing a colon is split at its
first colon with both sides stripped, anything else raises. -/
def parsePortEntry (e : Entry) : Except String (String × String) :=
  match e with
  | .edict h c s d so de =>
    let host := pyOr h (pyOr s so)
    let container := pyOr c (pyOr d de)
    if (!isNone host) && (!isNone container) then
      .ok (pyStr host, pyStr container)
    else
      .error ("Unrecognized port format: " ++ reprEntry e)
  | .estr s =>
    if hasColon s then
      let p := splitAtFirst ':' s.data
      .ok (pyStrip (String.mk p.1), pyStrip (String.mk p.2))
    else
      .error ("Unrecognized port format: " ++ reprEntry e)
  | .eother => .error ("Unrecognized port format: " ++ reprEntry e)

/-- Embedding of `parse_ports`: the entries of `config.get("ports") or
[]` parsed in order, raising at the first unrecognized entry. -/
def parse_ports : List Entry → Except String (List (String × String))
  | [] => .ok []
  | e :: rest => do
    let p ← parsePortEntry e
    let ps ← parse_ports rest
    pure (p :: ps)

/-- Embedding of one iteration of the loop in `parse_volumes`: records
prefer `src`/`source`/`host` and `dst`/`destination`/`container`; a
string is split at its first colon, and when the right part contains a
further colon only the destination before it is kept (the trailing mode
such as `:ro` is discarded). -/
def parseVolumeEntry (e : Entry) : Except String (String × String) :=
  match e with
  | .edict h c s d so de =>
    let src := pyOr s (pyOr so h)
    let dst := pyOr d (pyOr de c)
    if (!isNone src) && (!isNone dst) then
      .ok (pyStr src, pyStr dst)
    else
      .error ("Unrecognized volume format: " ++ reprEntry e)
  | .estr s =>
    if hasColon s then
      let p := splitAtFirst ':' s.data
      if hasColon (String.mk p.2) then
        let q := splitAtFirst ':' p.2
        .ok (pyStrip (String.mk p.1), pyStrip (String.mk q.1))
      else
        .ok (pyStrip (String.mk p.1), pyStrip (String.mk p.2))
    else
      .error ("Unrecognized volume format: " ++ reprEntry e)
  | .eother => .error ("Unrecognized volume format: " ++ reprEntry e)

/-- Embedding of `parse_volumes`. -/
def parse_volumes : List Entry → Except String (List (String × String))
  | [] => .ok []
  | e :: rest => do
    let p ← parseVolumeEntry e
    let ps ← parse_volumes rest
    pure (p :: ps)

/-- Dictionary built by the mapping branch of `parse_env`: each entry is
stringified (`str(k)`, `str(v)`) with `None` values coerced to the
empty string, assigned in iteration order. -/
def envMapping (xs : List (PyVal × PyVal)) : List (String × String) :=
  xs.foldl
    (fun acc kv => setD acc (pyStr kv.1) (if isNone kv.2 then "" else pyStr kv.2)) []

/-- Embedding of `parse_env`: the argument is the value of
`config.get("env")` (`PyVal.none` when the field is absent). The code
first applies `or \x7b\x7d`, so a falsy value is replaced by the empty
dict; non-dict values then raise. -/
def parse_env (env : PyVal) : Except String (List (String × String)) :=
  let env' := if pyTruthy env then env else .dict []
  match env' with
  | .dict xs => .ok (envMapping xs)
  | _ => .error "Field \x27env\x27 must be a mapping/dict if present."

/-! Manifest model: the fields of the YAML config read by
`generate_env_file` and `rewrite_compose_with_env`. `ports` and
`volumes` hold the effective entry list (`config.get(...) or []`);
the remaining fields hold the raw `config.get(...)` value. -/

/-- Manifest fields consumed by the pipeline. -/
structure Config where
  ports : List Entry
  volumes : List Entry
  env : PyVal
  service : PyVal
  services : PyVal
  image : PyVal

/-- The numbered `PREFIX_PORT{i}_SRC` / `PREFIX_PORT{i}_DST` lines of
the generated file, indices 1-based in source order. -/
def portLines (px : String) : Nat → List (String × String) → List String
  | _, [] => []
  | i, (h, c) :: t =>
    (px ++ "_PORT" ++ toString i ++ "_SRC=" ++ h)
      :: (px ++ "_PORT" ++ toString i ++ "_DST=" ++ c)
      :: portLines px (i + 1) t

/-- The numbered `PREFIX_VOL{i}_SRC` / `PREFIX_VOL{i}_DST` lines; the
host side goes through `normalize_host_path`, passed here as the
function `normalize` (it reads the process environment and the project
root, both fixed during a run). -/
def volLines (px : String) (normalize : String → String) :
    Nat → List (String × String) → List String
  | _, [] => []
  | i, (s, d) :: t =>
    (px ++ "_VOL" ++ toString i ++ "_SRC=" ++ normalize s)
      :: (px ++ "_VOL" ++ toString i ++ "_DST=" ++ d)
      :: volLines px normalize (i + 1) t

/-- Embedding of the pure part of `generate_env_file`
(`hpone/core/config.py`): the full text that would be written to
`dest_dir/.env`, or the first parse error. All three parses happen
before the single `write_text` call at the end of the source function,
so an error means no content is produced. -/
def generate_env_file_content (normalize : String → String)
    (honeypot_name : String) (cfg : Config) : Except String String := do
  let px := to_var_prefix honeypot_name
  let header := "# Auto-generated by manage.py for " ++ honeypot_name
  let pp ←
    match parse_ports cfg.ports with
    | .ok l => pure l
    | .error e => Except.error ("Failed parsing \x27ports\x27: " ++ e)
  let vp ←
    match parse_volumes cfg.volumes with
    | .ok l => pure l
    | .error e => Except.error ("Failed parsing \x27volumes\x27: " ++ e)
  let em ← parse_env cfg.env
  let envLines := em.map (fun kv => px ++ "_" ++ sanitizeEnvKey kv.1 ++ "=" ++ kv.2)
  let lines := header :: (portLines px 1 pp ++ volLines px normalize 1 vp ++ envLines)
  pure (String.intercalate "\n" lines ++ "\n")

/-- Embedding of `generate_env_file` together with its single side
effect: the state of `dest_dir/.env` is `Option String` (its content,
or `Option.none` when the file does not exist). `write_text` truncates
and rewrites, so success replaces the state wholesale; any parse error
is raised before the write, leaving the state untouched. -/
def generate_env_file (normalize : String → String) (honeypot_name : String)
    (cfg : Config) (envFile : Option String) :
    Option String × Except String Unit :=
  match generate_env_file_content normalize honeypot_name cfg with
  | .ok content => (some content, .ok ())
  | .error e => (envFile, .error e)

/-! SafeDataRemover (`remove_honeypot_data` in
`hpone/scripts/file_ops.py`). Absolute filesystem paths are modelled by
their component lists; `Path.resolve`, `Path.exists` and `Path.is_dir`
are external OS calls, modelled as an oracle structure. -/

/-- Filesystem oracle: `resolve` returns the canonical absolute path
(symlinks and `..` resolved), the other two mirror `Path.exists` and
`Path.is_dir`. -/
structure FS where
  resolve : List String → List String
  pathExists : List String → Bool
  isDir : List String → Bool

/-- Split a character list at every occurrence of `ch`
(the splitting of a path string on `/`). -/
def splitChar (ch : Char) : List Char → List (List Char)
  | [] => [[]]
  | c :: rest =>
    let r := splitChar ch rest
    if c = ch then [] :: r
    else
      match r with
      | [] => [[c]]
      | h :: t => (c :: h) :: t

/-- The components the `pathlib` join `base / s` appends: `s` is split
on slashes, and empty and single-dot components are collapsed away,
while `..` components are kept literally. -/
def joinParts (s : String) : List String :=
  ((splitChar '/' s.data).map String.mk).filter (fun c => c ≠ "" && c ≠ ".")

/-- The `pathlib` join `base / s`; an absolute `s` replaces `base`. -/
def joinPy (base : List String) (s : String) : List String :=
  match s.data with
  | '/' :: _ => joinParts s
  | _ => base ++ joinParts s

/-- Embedding of `remove_honeypot_data`: returns the boolean result
together with the path handed to `shutil.rmtree`, `Option.none` when
nothing is deleted. `target_resolved.relative_to(base)` succeeds
exactly when `base` is a componentwise prefix of the resolved target. -/
def remove_honeypot_data (fs : FS) (dataDir : List String) (honeypotId : String) :
    Bool × Option (List String) :=
  let base := fs.resolve dataDir
  let target := joinPy dataDir honeypotId
  let targetResolved := fs.resolve target
  if ¬ (fs.pathExists target && fs.isDir target) then
    (false, Option.none)
  else if ¬ List.isPrefixOf base targetResolved then
    (false, Option.none)
  else if targetResolved ≠ joinPy base honeypotId then
    (false, Option.none)
  else
    (true, some targetResolved)

/-! EphemeralProcessRunner (`run_with_ephemeral_logs` in
`hpone/core/log_runner.py`). Wall-clock time is modelled in whole
seconds; a subprocess is its natural running time, exit code, and the
lines it writes to the merged stdout/stderr pipe before exiting. -/

/-- Abstract subprocess: it runs for `runTime` seconds, emits `output`
on its pipe while running, then exits with `exitCode`, which closes the
pipe (EOF). -/
structure PyProc where
  runTime : Nat
  exitCode : Int
  output : List String

/-- The time at which the `readline` loop of `run_with_ephemeral_logs`
terminates: each buffered line is consumed as it arrives, and the final
`readline` blocks until the pipe reaches EOF, which happens when the
process exits — only then is `not line and process.poll() is not None`
true and the loop breaks. -/
def readLoopEnd (p : PyProc) : List String → Nat
  | [] => p.runTime
  | _ :: rest => readLoopEnd p rest

/-- Embedding of `Popen.wait(timeout=t)` called at time `now`: if the
process has already exited it returns the exit code immediately; if it
exits within `t` more seconds it returns the code then; otherwise it
raises `TimeoutExpired`. -/
def pyWait (p : PyProc) (now : Nat) (timeout : Option Nat) : Except Unit Int :=
  if p.runTime ≤ now then .ok p.exitCode
  else
    match timeout with
    | some t => if p.runTime ≤ now + t then .ok p.exitCode else .error ()
    | Option.none => .ok p.exitCode

/-- Embedding of the control flow of `run_with_ephemeral_logs`: the
blocking read loop runs first and only returns once the process has
exited; `process.wait(timeout=timeout)` is called after it, and the
`TimeoutExpired` handler (kill, report failure at the kill time) is
reached only if that wait times out. Returns `(success, duration)`. -/
def run_with_ephemeral_logs (p : PyProc) (timeout : Option Nat) : Bool × Nat :=
  let loopEnd := readLoopEnd p p.output
  match pyWait p loopEnd timeout with
  | .ok code => (code == 0, loopEnd)
  | .error _ => (false, loopEnd + timeout.getD 0)

/-! ComposeRewriter (`rewrite_compose_with_env` in
`hpone/core/config.py`). A compose service record is modelled by the
four keys the rewrite may touch; unrelated keys are passed through
untouched by the source and add nothing to the model. The YAML
round-trip (`safe_load` after `safe_dump`) is the identity on such
documents and is modelled as such. -/

/-- The `environment` key of a compose service: a mapping, a list of
`KEY=VALUE` strings, or anything else (absent, `None`, scalar) — the
source treats the last group uniformly. -/
inductive EnvAttr where
  | edict (xs : List (String × String))
  | elist (xs : List String)
  | eother

/-- A compose service record (the keys the rewrite may touch). -/
structure Service where
  ports : Option (List String)
  volumes : Option (List String)
  environment : EnvAttr
  image : Option String

/-- A value of the `services` mapping: a record, or a non-dict value
(skipped by both the subset filter and the rewrite loop). -/
inductive ServiceVal where
  | sdict (s : Service)
  | sother

/-- A loaded compose document: its `services` mapping. -/
structure ComposeDoc where
  services : List (String × ServiceVal)

/-- Conversion of a list-form `environment` to a mapping: items
containing `=` are split at the first `=` and assigned, others are
dropped. -/
def listToDict (items : List String) : List (String × String) :=
  items.foldl
    (fun acc it =>
      if it.data.any (fun c => c = '=') then
        let p := splitAtFirst '=' it.data
        setD acc (String.mk p.1) (String.mk p.2)
      else acc)
    []

/-- The `$\x7bPREFIX_PORT\x7bi\x7d_SRC\x7d:$\x7bPREFIX_PORT\x7bi\x7d_DST\x7d`
expressions, one per parsed port pair, 1-based. -/
def portsExprList (px : String) (n : Nat) : List String :=
  (List.range n).map (fun i =>
    "$\x7b" ++ px ++ "_PORT" ++ toString (i + 1) ++ "_SRC\x7d:$\x7b"
      ++ px ++ "_PORT" ++ toString (i + 1) ++ "_DST\x7d")

/-- The volume expressions, one per parsed volume pair, 1-based. -/
def volsExprList (px : String) (n : Nat) : List String :=
  (List.range n).map (fun i =>
    "$\x7b" ++ px ++ "_VOL" ++ toString (i + 1) ++ "_SRC\x7d:$\x7b"
      ++ px ++ "_VOL" ++ toString (i + 1) ++ "_DST\x7d")

/-- The `manifestKey -> $\x7bPREFIX_<SANITIZED_KEY>\x7d` mapping built
from the parsed env map (empty unless the manifest `env` is a dict). -/
def envExprMap (px : String) (env : PyVal) : List (String × String) :=
  match env with
  | .dict xs =>
    (envMapping xs).map (fun kv => (kv.1, "$\x7b" ++ px ++ "_" ++ sanitizeEnvKey kv.1 ++ "\x7d"))
  | _ => []

/-- The service names selected by the manifest: a truthy string
`service` field wins; otherwise a `services` list contributes its
string and int members, stringified. -/
def selectedServiceNames (cfg : Config) : List String :=
  let fromList :=
    match cfg.services with
    | .list xs =>
      xs.filterMap (fun v =>
        match v with
        | .str s => some s
        | .int n => some (toString n)
        | _ => Option.none)
    | _ => []
  match cfg.service with
  | .str s => if s = "" then fromList else [s]
  | _ => fromList

/-- `name in services and isinstance(services[name], dict)`: the record
stored under `n`, when there is one. -/
def dictHit (d : List (String × ServiceVal)) (n : String) : Option Service :=
  match lookupD d n with
  | some (.sdict s) => some s
  | _ => Option.none

/-- The loop body building the `filtered` dict of the subset step. -/
def buildFStep (d : List (String × ServiceVal)) (acc : List (String × ServiceVal))
    (n : String) : List (String × ServiceVal) :=
  match dictHit d n with
  | some s => setD acc n (.sdict s)
  | Option.none => acc

/-- The `filtered` dict: for each selected name in order, copy the
matching record entry of `d`. -/
def buildF (d : List (String × ServiceVal)) (sel : List String) :
    List (String × ServiceVal) :=
  sel.foldl (buildFStep d) []

/-- The service-subset step: with no selector the full mapping is kept;
with one, the filtered mapping is used unless it came out empty, in
which case the full mapping is kept (never produce an empty document). -/
def filterServices (svs : List (String × ServiceVal)) (sel : List String) :
    List (String × ServiceVal) :=
  if sel.isEmpty then svs
  else
    let f := buildF svs sel
    if f.isEmpty then svs else f

/-- Per-service mutation of the rewrite loop: ports and volumes are
replaced wholesale when expressions were derived; the environment
expressions are merged into an existing mapping (manifest keys win), a
list-form environment is converted to a mapping first, anything else is
replaced by the expression mapping; a non-empty manifest image
overrides the service image. -/
def applyServiceFields (pe ve : List String) (ee : List (String × String))
    (im : Option String) (s : Service) : Service :=
  { ports := if pe.isEmpty then s.ports else some pe
    volumes := if ve.isEmpty then s.volumes else some ve
    environment :=
      if ee.isEmpty then s.environment
      else
        match s.environment with
        | .edict cur => .edict (setMany cur ee)
        | .elist items => .edict (setMany (listToDict items) ee)
        | .eother => .edict ee
    image :=
      match im with
      | some img => some img
      | Option.none => s.image }

/-- The rewrite loop skips non-dict service values. -/
def applyService (pe ve : List String) (ee : List (String × String))
    (im : Option String) : ServiceVal → ServiceVal
  | .sdict s => .sdict (applyServiceFields pe ve ee im s)
  | .sother => .sother

/-- The manifest image override: a string with non-empty strip. -/
def imageOverride (image : PyVal) : Option String :=
  match image with
  | .str s => if pyStrip s = "" then Option.none else some (pyStrip s)
  | _ => Option.none

/-- Map a function over the values of a dictionary, keys unchanged
(the in-place mutation of each `svc` in the rewrite loop). -/
def mapVals {α β : Type} (f : α → β) (d : List (String × α)) : List (String × β) :=
  d.map (fun kv => (kv.1, f kv.2))

/-- The port pairs the rewrite works with: a parse failure is swallowed
(`except Exception: ports_pairs = []`). -/
def portsPairsOf (cfg : Config) : List (String × String) :=
  match parse_ports cfg.ports with
  | .ok l => l
  | .error _ => []

/-- The volume pairs the rewrite works with, failures swallowed. -/
def volumesPairsOf (cfg : Config) : List (String × String) :=
  match parse_volumes cfg.volumes with
  | .ok l => l
  | .error _ => []

/-- The subset step followed by the per-service rewrite loop. -/
def rewriteCore (pe ve : List String) (ee : List (String × String))
    (im : Option String) (sel : List String)
    (svs : List (String × ServiceVal)) : List (String × ServiceVal) :=
  mapVals (applyService pe ve ee im) (filterServices svs sel)

/-- Embedding of the body of `rewrite_compose_with_env` acting on a
non-empty `services` mapping: parse failures for ports/volumes are
swallowed, the subset step runs, and every remaining service is
rewritten. -/
def rewrite_services (cfg : Config) (honeypot_name : String)
    (svs : List (String × ServiceVal)) : List (String × ServiceVal) :=
  rewriteCore
    (portsExprList ( to_var_prefix honeypot_name) (portsPairsOf cfg).length)
    (volsExprList ( to_var_prefix honeypot_name) (volumesPairsOf cfg).length)
    (envExprMap ( to_var_prefix honeypot_name) cfg.env)
    (imageOverride cfg.image)
    (selectedServiceNames cfg)
    svs

/-- The `ports` value of a service entry (`Option.none` for a non-dict
entry, which has no `ports` key the rewrite could touch). -/
def svPorts : ServiceVal → Option (List String)
  | .sdict s => s.ports
  | .sother => Option.none

/-- The `volumes` value of a service entry. -/
def svVolumes : ServiceVal → Option (List String)
  | .sdict s => s.volumes
  | .sother => Option.none

/-- Embedding of `rewrite_compose_with_env`: `Option.none` models a
missing compose file (early return, nothing written); a document whose
`services` mapping is missing, not a dict, or empty is returned
unwritten and unchanged; otherwise the rewritten document is persisted
back to the same path. -/
def rewrite_compose_with_env (cfg : Config) (honeypot_name : String) :
    Option ComposeDoc → Option ComposeDoc
  | Option.none => Option.none
  | some d =>
    if d.services.isEmpty then some d
    else some ⟨rewrite_services cfg honeypot_name d.services⟩

/-! Concrete fixtures used by witnesses and counterexamples. -/

/-- A filesystem with DataRoot `/srv/hpone/data` present as a directory,
no symlinks anywhere, and every path already canonical, so `resolve` is
the identity. -/
def fsDataRootOnly : FS :=
  ⟨fun p => p,
   fun p => p == ["srv", "hpone", "data"],
   fun p => p == ["srv", "hpone", "data"]⟩

/-- A filesystem where both DataRoot `/srv/hpone/data` and its child
`etc` exist as directories, no symlinks. -/
def fsDataRootEtc : FS :=
  ⟨fun p => p,
   fun p => p == ["srv", "hpone", "data"] || p == ["srv", "hpone", "data", "etc"],
   fun p => p == ["srv", "hpone", "data"] || p == ["srv", "hpone", "data", "etc"]⟩

/-- A manifest whose `ports` sequence holds one entry of unrecognized
shape (neither record nor string). -/
def cfgPortsBad : Config :=
  ⟨[.eother], [], .none, .none, .none, .none⟩

/-- The end-to-end example manifest of the spec:
`\x7bname: cowrie, ports: ["2222:22"],
volumes: ["./data/cowrie:/cowrie/var"],
env: \x7bTELNET_ENABLED: "true"\x7d\x7d`. -/
def cfgCowrie : Config :=
  ⟨[.estr "2222:22"], [.estr "./data/cowrie:/cowrie/var"],
   .dict [(.str "TELNET_ENABLED", .str "true")], .none, .none, .none⟩

/-- The `.env` content generated for `cfgCowrie` (host paths taken as
already normalized). -/
def cowrieEnvContent : String :=
  "# Auto-generated by manage.py for cowrie\nCOWRIE_PORT1_SRC=2222\nCOWRIE_PORT1_DST=22\nCOWRIE_VOL1_SRC=./data/cowrie\nCOWRIE_VOL1_DST=/cowrie/var\nCOWRIE_TELNET_ENABLED=true\n"

/-- A one-service compose document whose service already carries ports,
volumes, and a mapping environment. -/
def docWeb : ComposeDoc :=
  ⟨[("web", .sdict ⟨some ["8080:80"], some ["/a:/b"], .edict [("K", "v")], some "img"⟩)]⟩

/-! Everything below is theorems: general lemmas about the list and
dictionary operations first, then the verified properties. -/

theorem mem_dropWhile_of_mem {α : Type} {p : α → Bool} {a : α} :
    ∀ {l : List α}, a ∈ l → p a = false → a ∈ l.dropWhile p := by
  intro l
  induction l with
  | nil => intro h; cases h
  | cons b t ih =>
    intro hmem hpa
    by_cases hb : p b = true
    · rw [List.dropWhile_cons_of_pos hb]
      rcases List.mem_cons.mp hmem with rfl | ht
      · rw [hpa] at hb; cases hb
      · exact ih ht hpa
    · rw [List.dropWhile_cons_of_neg hb]
      exact hmem

theorem mem_of_mem_dropWhile {α : Type} {p : α → Bool} {a : α} :
    ∀ {l : List α}, a ∈ l.dropWhile p → a ∈ l := by
  intro l
  induction l with
  | nil => intro h; cases h
  | cons b t ih =>
    intro hmem
    by_cases hb : p b = true
    · rw [List.dropWhile_cons_of_pos hb] at hmem
      exact List.mem_cons_of_mem b (ih hmem)
    · rw [List.dropWhile_cons_of_neg hb] at hmem
      exact hmem

theorem head?_dropWhile_false {α : Type} {p : α → Bool} {c : α} :
    ∀ {l : List α}, (l.dropWhile p).head? = some c → p c = false := by
  intro l
  induction l with
  | nil => intro h; cases h
  | cons b t ih =>
    intro h
    by_cases hb : p b = true
    · rw [List.dropWhile_cons_of_pos hb] at h
      exact ih h
    · rw [List.dropWhile_cons_of_neg hb] at h
      cases h
      simpa using hb

theorem dropWhile_is_suffix {α : Type} (p : α → Bool) :
    ∀ l : List α, ∃ t, t ++ l.dropWhile p = l := by
  intro l
  induction l with
  | nil => exact ⟨[], rfl⟩
  | cons b t ih =>
    by_cases hb : p b = true
    · obtain ⟨w, hw⟩ := ih
      refine ⟨b :: w, ?_⟩
      rw [List.dropWhile_cons_of_pos hb, List.cons_append, hw]
    · exact ⟨[], by rw [List.nil_append, List.dropWhile_cons_of_neg hb]⟩

theorem mem_dropTrail_of_mem {α : Type} {p : α → Bool} {a : α} {l : List α}
    (hmem : a ∈ l) (hpa : p a = false) : a ∈ dropTrail p l := by
  unfold dropTrail
  rw [List.mem_reverse]
  exact mem_dropWhile_of_mem (List.mem_reverse.mpr hmem) hpa

theorem mem_of_mem_dropTrail {α : Type} {p : α → Bool} {a : α} {l : List α}
    (h : a ∈ dropTrail p l) : a ∈ l := by
  unfold dropTrail at h
  rw [List.mem_reverse] at h
  exact List.mem_reverse.mp (mem_of_mem_dropWhile h)

theorem getLast?_dropTrail_false {α : Type} {p : α → Bool} {c : α} {l : List α}
    (h : (dropTrail p l).getLast? = some c) : p c = false := by
  unfold dropTrail at h
  rw [List.getLast?_reverse] at h
  exact head?_dropWhile_false h

theorem head?_dropTrail_some {α : Type} {p : α → Bool} {c : α} {l : List α}
    (h : (dropTrail p l).head? = some c) : l.head? = some c := by
  obtain ⟨w, hw⟩ := dropWhile_is_suffix p l.reverse
  have hpre : dropTrail p l ++ w.reverse = l := by
    unfold dropTrail
    rw [← List.reverse_append, hw, List.reverse_reverse]
  rw [← hpre]
  cases hd : dropTrail p l with
  | nil => rw [hd] at h; cases h
  | cons x xs =>
    rw [hd] at h
    cases h
    rfl

theorem mem_stripWhile_of_mem {α : Type} {p : α → Bool} {a : α} {l : List α}
    (hmem : a ∈ l) (hpa : p a = false) : a ∈ stripWhile p l :=
  mem_dropTrail_of_mem (mem_dropWhile_of_mem hmem hpa) hpa

theorem mem_of_mem_stripWhile {α : Type} {p : α → Bool} {a : α} {l : List α}
    (h : a ∈ stripWhile p l) : a ∈ l :=
  mem_of_mem_dropWhile (mem_of_mem_dropTrail h)

theorem head?_stripWhile_false {α : Type} {p : α → Bool} {c : α} {l : List α}
    (h : (stripWhile p l).head? = some c) : p c = false :=
  head?_dropWhile_false (head?_dropTrail_some h)

theorem getLast?_stripWhile_false {α : Type} {p : α → Bool} {c : α} {l : List α}
    (h : (stripWhile p l).getLast? = some c) : p c = false :=
  getLast?_dropTrail_false h

theorem mem_collapseRuns {c : Char} :
    ∀ (l : List Char) (b : Bool), c ∈ collapseRuns b l →
      isUpperAlnum c = true ∨ c = '_' := by
  intro l
  induction l with
  | nil => intro b h; cases h
  | cons d t ih =>
    intro b h
    by_cases hd : isUpperAlnum d = true
    · rw [collapseRuns, if_pos hd] at h
      rcases List.mem_cons.mp h with rfl | ht
      · exact Or.inl hd
      · exact ih false ht
    · rw [collapseRuns, if_neg hd] at h
      by_cases hb : b = true
      · subst hb
        rw [if_pos rfl] at h
        exact ih true h
      · rw [Bool.not_eq_true] at hb
        subst hb
        simp only [Bool.false_eq_true, if_false] at h
        rcases List.mem_cons.mp h with rfl | ht
        · exact Or.inr rfl
        · exact ih true ht

theorem collapseRuns_mem_of_mem {c : Char} (hc : isUpperAlnum c = true) :
    ∀ (l : List Char) (b : Bool), c ∈ l → c ∈ collapseRuns b l := by
  intro l
  induction l with
  | nil => intro b h; cases h
  | cons d t ih =>
    intro b h
    rcases List.mem_cons.mp h with rfl | ht
    · rw [collapseRuns, if_pos hc]
      exact List.mem_cons_self _ _
    · by_cases hd : isUpperAlnum d = true
      · rw [collapseRuns, if_pos hd]
        exact List.mem_cons_of_mem _ (ih false ht)
      · rw [collapseRuns, if_neg hd]
        by_cases hb : b = true
        · subst hb
          rw [if_pos rfl]
          exact ih true ht
        · rw [Bool.not_eq_true] at hb
          subst hb
          simp only [Bool.false_eq_true, if_false]
          exact List.mem_cons_of_mem _ (ih true ht)

theorem upperAlnum_of_space {c : Char} (h : isPySpace c = true) :
    isUpperAlnum (Char.toUpper c) = false := by
  simp only [isPySpace, Bool.or_eq_true, decide_eq_true_eq] at h
  rcases h with ((((h | h) | h) | h) | h) | h <;> subst h <;> decide

theorem to_var_prefix_data (s : String) :
    ( to_var_prefix s).data =
      stripWhile (fun c => c = '_')
        (collapseRuns false ((stripWhile isPySpace s.data).map Char.toUpper)) := rfl

/-- C3, counterexample. The claim asserts a non-empty result for every
service name, in particular names made of symbols; but a name
containing no alphanumeric character collapses to a single underscore
run which the final `strip("_")` removes entirely: `to_var_prefix "!"`
is the empty string. -/
theorem to_var_prefix_claim_counterexample : to_var_prefix "!" = "" := by decide

/-- C3, amended. For every service name, `to_var_prefix` yields a
string over `[A-Z0-9_]` with no leading or trailing underscore, and the
result is non-empty whenever the name contains at least one character
that is alphanumeric after uppercasing; an all-symbol name yields the
empty string. -/
theorem to_var_prefix_amended (s : String) :
    (∀ c ∈ ( to_var_prefix s).data, isUpperAlnum c = true ∨ c = '_') ∧
    (∀ c, ( to_var_prefix s).data.head? = some c → c ≠ '_') ∧
    (∀ c, ( to_var_prefix s).data.getLast? = some c → c ≠ '_') ∧
    ((∃ c ∈ s.data, isUpperAlnum (Char.toUpper c) = true) → to_var_prefix s ≠ "") := by
  refine ⟨?_, ?_, ?_, ?_⟩
  · intro c hc
    rw [to_var_prefix_data] at hc
    exact mem_collapseRuns _ _ (mem_of_mem_stripWhile hc)
  · intro c hc
    rw [to_var_prefix_data] at hc
    simpa using head?_stripWhile_false hc
  · intro c hc
    rw [to_var_prefix_data] at hc
    simpa using getLast?_stripWhile_false hc
  · rintro ⟨c, hcmem, hcup⟩
    intro hempty
    have hdata : ( to_var_prefix s).data = [] := by
      rw [hempty]
    have hspace : isPySpace c = false := by
      by_cases hs : isPySpace c = true
      · rw [upperAlnum_of_space hs] at hcup; cases hcup
      · simpa using hs
    have h1 : c ∈ stripWhile isPySpace s.data := mem_stripWhile_of_mem hcmem hspace
    have h2 : Char.toUpper c ∈ (stripWhile isPySpace s.data).map Char.toUpper :=
      List.mem_map_of_mem _ h1
    have h3 : Char.toUpper c ∈
        collapseRuns false ((stripWhile isPySpace s.data).map Char.toUpper) :=
      collapseRuns_mem_of_mem hcup _ false h2
    have hne : decide (Char.toUpper c = '_') = false := by
      by_cases hu : Char.toUpper c = '_'
      · rw [hu] at hcup; cases hcup
      · simpa using hu
    have h4 : Char.toUpper c ∈ ( to_var_prefix s).data := by
      rw [to_var_prefix_data]
      exact mem_stripWhile_of_mem h3 hne
    rw [hdata] at h4
    cases h4

/-- C3, witness for the amended theorem: the name `a-b!` contains an
alphanumeric character, so the derived prefix is non-empty. -/
theorem to_var_prefix_amended_witness : to_var_prefix "a-b!" ≠ "" :=
  (to_var_prefix_amended "a-b!").2.2.2 ⟨'a', by decide, by decide⟩

theorem readLoopEnd_eq_runTime (p : PyProc) : ∀ l, readLoopEnd p l = p.runTime := by
  intro l
  induction l with
  | nil => rfl
  | cons x t ih => exact ih

/-- C2, evaluation at the failing input. A process whose natural
runtime is 10 seconds, run with a 1-second wait bound: the blocking
read loop only returns once the pipe hits EOF at process exit, so
`process.wait(timeout=1)` is reached with the process already
terminated and never raises; the call reports success after the full
10 seconds instead of killing at 1 second and reporting failure. -/
theorem run_with_ephemeral_logs_timeout_dead :
    run_with_ephemeral_logs ⟨10, 0, []⟩ (some 1) = (true, 10) := by decide

/-- C1, evaluation at the failing input. Against a DataRoot of
`/srv/hpone/data` (existing directory, no symlinks, canonical paths),
`remove_honeypot_data "."` passes every safety check — the `pathlib`
join drops the `.` component, so the computed target, its resolution,
and `base / honeypot_id` are all DataRoot itself — and the function
deletes DataRoot and returns true, where the claim requires a refusal
whenever the resolved target equals DataRoot. -/
theorem remove_honeypot_data_dot_deletes_dataroot :
    remove_honeypot_data fsDataRootOnly ["srv", "hpone", "data"] "." =
      (true, some ["srv", "hpone", "data"]) := by decide

theorem mk_data (s : String) : String.mk s.data = s := rfl

theorem splitAtFirst_append {ch : Char} :
    ∀ {l₁ : List Char} (l₂ : List Char), ch ∉ l₁ →
      splitAtFirst ch (l₁ ++ ch :: l₂) = (l₁, l₂) := by
  intro l₁
  induction l₁ with
  | nil =>
    intro l₂ _
    simp [splitAtFirst]
  | cons c t ih =>
    intro l₂ hmem
    have hcch : ¬ c = ch := fun h => hmem (h ▸ List.mem_cons_self c t)
    rw [List.cons_append, splitAtFirst, if_neg hcch,
      ih l₂ (fun h => hmem (List.mem_cons_of_mem c h))]

theorem data_mid_colon (a b : String) :
    (a ++ ":" ++ b).data = a.data ++ ':' :: b.data := by
  rw [String.data_append, String.data_append]
  rw [List.append_assoc]
  rfl

theorem hasColon_mid (a b : String) : hasColon (a ++ ":" ++ b) = true := by
  rw [hasColon, data_mid_colon]
  rw [List.any_eq_true]
  exact ⟨':', List.mem_append_right _ (List.mem_cons_self _ _), by decide⟩

theorem not_mem_colon_of_hasColon_false {s : String} (h : hasColon s = false) :
    ':' ∉ s.data := by
  intro hmem
  rw [hasColon, List.any_eq_false] at h
  exact absurd (by decide) (h ':' hmem)

theorem isNone_of_truthy {v : PyVal} (h : pyTruthy v = true) : isNone v = false := by
  cases v <;> simp_all [pyTruthy, isNone]

theorem pyOr_none_none : pyOr PyVal.none PyVal.none = PyVal.none := rfl

theorem pyOr_of_truthy {a : PyVal} (b : PyVal) (h : pyTruthy a = true) : pyOr a b = a := by
  rw [pyOr, if_pos h]

/-- C6, counterexample. The claim asserts that the record form
`\x7bhost: H, container: C\x7d` and the string form `"H:C"` always parse
to the same pair; but the record lookups go through Python `or`-chains,
so a falsy host value such as `0` is treated as missing and the record
entry is rejected, while the string `"0:22"` parses fine. -/
theorem parse_port_forms_counterexample :
    parsePortEntry (Entry.edict (.int 0) (.int 22) .none .none .none .none) =
      .error "Unrecognized port format: \x7b...\x7d" ∧
    parsePortEntry (.estr "0:22") = .ok ("0", "22") :=
  ⟨rfl, rfl⟩

/-- C6, amended. The record form and the string form parse to the same
pair `(str(H), str(C))` for every host and container value that is
truthy (non-zero, non-empty — falsy values are swallowed by the
`or`-chains) and whose string form is colon-free and carries no
surrounding whitespace; every rejected entry fails with a format error
that renders the offending entry. -/
theorem parse_port_forms_amended :
    (∀ h c : PyVal, pyTruthy h = true → pyTruthy c = true →
      hasColon (pyStr h) = false →
      pyStrip (pyStr h) = pyStr h → pyStrip (pyStr c) = pyStr c →
      parsePortEntry (Entry.edict h c .none .none .none .none) = .ok (pyStr h, pyStr c) ∧
      parsePortEntry (.estr (pyStr h ++ ":" ++ pyStr c)) = .ok (pyStr h, pyStr c)) ∧
    (∀ e m, parsePortEntry e = .error m →
      m = "Unrecognized port format: " ++ reprEntry e) := by
  constructor
  · intro h c hth htc hcol hsh hsc
    constructor
    · rw [parsePortEntry]
      rw [pyOr_none_none, pyOr_of_truthy _ hth, pyOr_of_truthy _ htc]
      rw [isNone_of_truthy hth, isNone_of_truthy htc]
      rfl
    · rw [parsePortEntry, hasColon_mid]
      rw [data_mid_colon,
        splitAtFirst_append _ (not_mem_colon_of_hasColon_false hcol)]
      simp only [mk_data, hsh, hsc, if_true]
  · intro e m hm
    cases e with
    | edict h c s d so de =>
      rw [parsePortEntry] at hm
      split at hm
      · cases hm
      · injection hm with hm
        exact hm.symm
    | estr s =>
      rw [parsePortEntry] at hm
      split at hm
      · cases hm
      · injection hm with hm
        exact hm.symm
    | eother =>
      injection hm with hm
      exact hm.symm

/-- C6, witness for the amended theorem, at the values of the spec
example: host `2222`, container `22`. -/
theorem parse_port_forms_amended_witness :
    parsePortEntry (Entry.edict (.int 2222) (.int 22) .none .none .none .none) =
      .ok ("2222", "22") ∧
    parsePortEntry (.estr "2222:22") = .ok ("2222", "22") := by
  have h := parse_port_forms_amended.1 (.int 2222) (.int 22)
    (by decide) (by decide) (by decide) (by decide) (by decide)
  rw [show pyStr (PyVal.int 2222) = "2222" from rfl,
    show pyStr (PyVal.int 22) = "22" from rfl,
    show ("2222" ++ ":" ++ "22" : String) = "2222:22" from rfl] at h
  exact h

/-- C7. A volume string assembled from a colon-free, whitespace-trimmed
source and destination and an arbitrary trailing mode parses to exactly
the pair `(SRC, DST)`: the mode segment after the second colon is
recognized and discarded and never reaches the destination. -/
theorem parse_volume_mode_dropped (src dst mode : String)
    (h1 : hasColon src = false) (h2 : hasColon dst = false)
    (h3 : pyStrip src = src) (h4 : pyStrip dst = dst) :
    parseVolumeEntry (.estr (src ++ ":" ++ (dst ++ ":" ++ mode))) = .ok (src, dst) := by
  rw [parseVolumeEntry]
  rw [hasColon_mid]
  rw [data_mid_colon src (dst ++ ":" ++ mode),
    splitAtFirst_append _ (not_mem_colon_of_hasColon_false h1)]
  simp only [mk_data]
  rw [hasColon_mid dst mode]
  rw [data_mid_colon dst mode,
    splitAtFirst_append _ (not_mem_colon_of_hasColon_false h2)]
  simp only [mk_data, h3, h4, if_true]

/-- C7, witness at the spec example `/data/x:/dst:ro`. -/
theorem parse_volume_mode_dropped_witness :
    parseVolumeEntry (.estr "/data/x:/dst:ro") = .ok ("/data/x", "/dst") := by
  have h := parse_volume_mode_dropped "/data/x" "/dst" "ro"
    (by decide) (by decide) (by decide) (by decide)
  rwa [show ("/data/x" ++ ":" ++ ("/dst" ++ ":" ++ "ro")) = "/data/x:/dst:ro" by decide] at h

theorem mem_setD {α : Type} {x : String × α} :
    ∀ {d : List (String × α)} {k : String} {v : α},
      x ∈ setD d k v → x ∈ d ∨ x = (k, v) := by
  intro d
  induction d with
  | nil =>
    intro k v h
    rw [setD] at h
    rcases List.mem_cons.mp h with rfl | h
    · exact Or.inr rfl
    · cases h
  | cons p t ih =>
    intro k v h
    rw [setD] at h
    by_cases hk : p.1 = k
    · rw [if_pos hk] at h
      rcases List.mem_cons.mp h with rfl | h
      · exact Or.inr (by rw [hk])
      · exact Or.inl (List.mem_cons_of_mem _ h)
    · rw [if_neg hk] at h
      rcases List.mem_cons.mp h with rfl | h
      · exact Or.inl (List.mem_cons_self _ _)
      · rcases ih h with h | h
        · exact Or.inl (List.mem_cons_of_mem _ h)
        · exact Or.inr h

theorem envMapping_mem_aux {kv : String × String} :
    ∀ (xs : List (PyVal × PyVal)) (acc : List (String × String)),
      kv ∈ xs.foldl
        (fun acc p =>
          setD acc (pyStr p.1) (if isNone p.2 then "" else pyStr p.2)) acc →
      kv ∈ acc ∨
        ∃ k v, (k, v) ∈ xs ∧ kv = (pyStr k, if isNone v then "" else pyStr v) := by
  intro xs
  induction xs with
  | nil =>
    intro acc h
    exact Or.inl h
  | cons p t ih =>
    intro acc h
    rw [List.foldl_cons] at h
    rcases ih _ h with h | ⟨k, v, hkv, hx⟩
    · rcases mem_setD h with h | h
      · exact Or.inl h
      · exact Or.inr ⟨p.1, p.2, List.mem_cons_self _ _, h⟩
    · exact Or.inr ⟨k, v, List.mem_cons_of_mem _ hkv, hx⟩

/-- C8, counterexample. The claim asserts a type error whenever `env`
is present and not a mapping; but the source first applies
`or \x7b\x7d`, so a present falsy non-mapping such as the empty string
is silently replaced by the empty dict and parsing succeeds. -/
theorem parse_env_claim_counterexample :
    isNone (PyVal.str "") = false ∧ isDictV (PyVal.str "") = false ∧
    parse_env (.str "") = .ok [] :=
  ⟨rfl, rfl, rfl⟩

/-- C8, amended. `parse_env` fails with the type error exactly on
truthy non-mapping values of `env`; a falsy value (null, `0`, empty
string, empty list — including an absent field) yields the empty
mapping; a mapping parses to its entries with all keys and values
stringified and null values coerced to the empty string. -/
theorem parse_env_amended :
    (∀ v, pyTruthy v = true → isDictV v = false →
      parse_env v = .error "Field \x27env\x27 must be a mapping/dict if present.") ∧
    (∀ v, pyTruthy v = false → parse_env v = .ok []) ∧
    (∀ xs, parse_env (.dict xs) = .ok (envMapping xs)) ∧
    (∀ xs kv, kv ∈ envMapping xs →
      ∃ k v, (k, v) ∈ xs ∧ kv = (pyStr k, if isNone v then "" else pyStr v)) := by
  refine ⟨?_, ?_, ?_, ?_⟩
  · intro v ht hd
    rw [parse_env]
    rw [if_pos ht]
    cases v with
    | dict xs => rw [isDictV] at hd; cases hd
    | none => rfl
    | str s => rfl
    | int n => rfl
    | list xs => rfl
  · intro v ht
    rw [parse_env, if_neg (by simp [ht])]
    rfl
  · intro xs
    by_cases ht : pyTruthy (PyVal.dict xs) = true
    · rw [parse_env, if_pos ht]
    · have hxs : xs = [] := by
        simpa [pyTruthy, List.isEmpty_iff] using ht
      subst hxs
      rfl
  · intro xs kv h
    rcases envMapping_mem_aux xs [] h with h | h
    · cases h
    · exact h

/-- C8, witness for the amended theorem: a truthy non-mapping `env`
(the integer `5`) is rejected with the type error. -/
theorem parse_env_amended_witness :
    parse_env (.int 5) = .error "Field \x27env\x27 must be a mapping/dict if present." :=
  parse_env_amended.1 (.int 5) (by decide) rfl

/-- C4. Whenever parsing of ports, volumes, or env fails for a
manifest, `generate_env_file` raises that parse error before its single
`write_text` call: the `.env` file state is left exactly as it was (in
particular no partial file is created). -/
theorem generate_env_file_no_partial_write
    (normalize : String → String) (nm : String) (cfg : Config)
    (envFile : Option String)
    (h : (∃ e, parse_ports cfg.ports = .error e) ∨
         (∃ e, parse_volumes cfg.volumes = .error e) ∨
         (∃ e, parse_env cfg.env = .error e)) :
    (generate_env_file normalize nm cfg envFile).1 = envFile ∧
    ∃ e, (generate_env_file normalize nm cfg envFile).2 = .error e := by
  have hcontent : ∃ e', generate_env_file_content normalize nm cfg = .error e' := by
    rcases h with ⟨e, hp⟩ | ⟨e, hp⟩ | ⟨e, hp⟩
    · refine ⟨"Failed parsing \x27ports\x27: " ++ e, ?_⟩
      simp only [generate_env_file_content, hp]
      rfl
    · cases hpp : parse_ports cfg.ports with
      | error e0 =>
        refine ⟨"Failed parsing \x27ports\x27: " ++ e0, ?_⟩
        simp only [generate_env_file_content, hpp]
        rfl
      | ok l =>
        refine ⟨"Failed parsing \x27volumes\x27: " ++ e, ?_⟩
        simp only [generate_env_file_content, hpp, hp]
        rfl
    · cases hpp : parse_ports cfg.ports with
      | error e0 =>
        refine ⟨"Failed parsing \x27ports\x27: " ++ e0, ?_⟩
        simp only [generate_env_file_content, hpp]
        rfl
      | ok l =>
        cases hpv : parse_volumes cfg.volumes with
        | error e1 =>
          refine ⟨"Failed parsing \x27volumes\x27: " ++ e1, ?_⟩
          simp only [generate_env_file_content, hpp, hpv]
          rfl
        | ok l2 =>
          refine ⟨e, ?_⟩
          simp only [generate_env_file_content, hpp, hpv, hp]
          rfl
  obtain ⟨e', he'⟩ := hcontent
  rw [generate_env_file, he']
  exact ⟨rfl, e', rfl⟩

/-- C4, witness: a manifest with one malformed port entry leaves a
previously missing `.env` file missing and reports the error. -/
theorem generate_env_file_no_partial_write_witness :
    (generate_env_file id "x" cfgPortsBad Option.none).1 = Option.none ∧
    ∃ e, (generate_env_file id "x" cfgPortsBad Option.none).2 = .error e :=
  generate_env_file_no_partial_write id "x" cfgPortsBad Option.none
    (Or.inl ⟨"Unrecognized port format: <entry>", rfl⟩)

/-- C5. For a manifest on which content generation succeeds, running
`generate_env_file` twice with identical input leaves the `.env` file
with the same byte-identical content after each run: the content is a
pure function of the inputs and `write_text` overwrites wholesale. -/
theorem generate_env_file_deterministic
    (normalize : String → String) (nm : String) (cfg : Config)
    (envFile : Option String) (c : String)
    (h : generate_env_file_content normalize nm cfg = .ok c) :
    (generate_env_file normalize nm cfg envFile).1 = some c ∧
    (generate_env_file normalize nm cfg
      (generate_env_file normalize nm cfg envFile).1).1 = some c := by
  constructor <;> simp [generate_env_file, h]

/-- C5, witness at the end-to-end example manifest of the spec: both
runs leave the `.env` file holding `cowrieEnvContent`. -/
theorem generate_env_file_deterministic_witness :
    (generate_env_file id "cowrie" cfgCowrie Option.none).1 = some cowrieEnvContent ∧
    (generate_env_file id "cowrie" cfgCowrie
      (generate_env_file id "cowrie" cfgCowrie Option.none).1).1 = some cowrieEnvContent :=
  generate_env_file_deterministic id "cowrie" cfgCowrie Option.none
    cowrieEnvContent rfl

theorem lookupD_setD_self {α : Type} (d : List (String × α)) (k : String) (v : α) :
    lookupD (setD d k v) k = some v := by
  induction d with
  | nil => simp [setD, lookupD]
  | cons p t ih =>
    rw [setD]
    by_cases hk : p.1 = k
    · rw [if_pos hk, lookupD, if_pos hk]
    · rw [if_neg hk, lookupD, if_neg hk]
      exact ih

theorem lookupD_setD_ne {α : Type} (d : List (String × α)) {k k' : String} (v : α)
    (h : k' ≠ k) : lookupD (setD d k v) k' = lookupD d k' := by
  induction d with
  | nil =>
    rw [setD, lookupD, lookupD, if_neg (fun hh => h hh.symm)]
    rfl
  | cons p t ih =>
    rw [setD]
    by_cases hk : p.1 = k
    · rw [if_pos hk, lookupD, lookupD]
      have : ¬ p.1 = k' := fun hh => h (by rw [← hh]; exact hk)
      rw [if_neg this, if_neg this]
    · rw [if_neg hk, lookupD, lookupD]
      by_cases hk' : p.1 = k'
      · rw [if_pos hk', if_pos hk']
      · rw [if_neg hk', if_neg hk']
        exact ih

theorem setD_eq_of_lookupD {α : Type} {k : String} {v : α} :
    ∀ {d : List (String × α)}, lookupD d k = some v → setD d k v = d := by
  intro d
  induction d with
  | nil => intro h; cases h
  | cons p t ih =>
    intro h
    rw [lookupD] at h
    rw [setD]
    by_cases hk : p.1 = k
    · rw [if_pos hk] at h ⊢
      injection h with h
      rw [← h]
    · rw [if_neg hk] at h ⊢
      rw [ih h]

theorem keysOf_setD_mem {α : Type} {d : List (String × α)} {k : String} (v : α)
    (h : k ∈ keysOf d) : keysOf (setD d k v) = keysOf d := by
  induction d with
  | nil => cases h
  | cons p t ih =>
    rw [setD]
    by_cases hk : p.1 = k
    · rw [if_pos hk]
      rfl
    · rw [if_neg hk]
      have : k ∈ keysOf t := by
        rcases List.mem_cons.mp h with h | h
        · exact absurd h.symm hk
        · exact h
      show p.1 :: keysOf (setD t k v) = p.1 :: keysOf t
      rw [ih this]

theorem keysOf_setD_not_mem {α : Type} {d : List (String × α)} {k : String} (v : α)
    (h : k ∉ keysOf d) : keysOf (setD d k v) = keysOf d ++ [k] := by
  induction d with
  | nil => rfl
  | cons p t ih =>
    rw [setD]
    by_cases hk : p.1 = k
    · exact absurd (hk ▸ List.mem_cons_self _ _) h
    · rw [if_neg hk]
      have : k ∉ keysOf t := fun hh => h (List.mem_cons_of_mem _ hh)
      show p.1 :: keysOf (setD t k v) = (p.1 :: keysOf t) ++ [k]
      rw [ih this]
      rfl

theorem nodup_keysOf_setD {α : Type} {d : List (String × α)} {k : String} (v : α)
    (h : (keysOf d).Nodup) : (keysOf (setD d k v)).Nodup := by
  by_cases hk : k ∈ keysOf d
  · rw [keysOf_setD_mem v hk]
    exact h
  · rw [keysOf_setD_not_mem v hk]
    rw [List.nodup_append]
    refine ⟨h, List.nodup_singleton k, ?_⟩
    intro a ha hb
    rw [List.mem_singleton] at hb
    exact hk (hb ▸ ha)

theorem lookupD_setMany_not_mem {α : Type} {k : String} :
    ∀ {m : List (String × α)} (d : List (String × α)), k ∉ keysOf m →
      lookupD (setMany d m) k = lookupD d k := by
  intro m
  induction m with
  | nil => intro d _; rfl
  | cons p t ih =>
    intro d h
    have hne : k ≠ p.1 := fun hh => h (hh ▸ List.mem_cons_self _ _)
    have ht : k ∉ keysOf t := fun hh => h (List.mem_cons_of_mem _ hh)
    show lookupD (setMany (setD d p.1 p.2) t) k = lookupD d k
    rw [ih _ ht]
    exact lookupD_setD_ne _ _ hne

theorem lookupD_setMany_mem {α : Type} {k : String} {v : α} :
    ∀ {m : List (String × α)} (d : List (String × α)), (keysOf m).Nodup →
      (k, v) ∈ m → lookupD (setMany d m) k = some v := by
  intro m
  induction m with
  | nil => intro d _ h; cases h
  | cons p t ih =>
    intro d hnd hmem
    have hnd' : (keysOf t).Nodup := (List.nodup_cons.mp hnd).2
    have hp : p.1 ∉ keysOf t := (List.nodup_cons.mp hnd).1
    rcases List.mem_cons.mp hmem with rfl | hmem
    · show lookupD (setMany (setD d k v) t) k = some v
      rw [lookupD_setMany_not_mem _ hp]
      exact lookupD_setD_self _ _ _
    · exact ih _ hnd' hmem

theorem setMany_eq_of_lookupD {α : Type} :
    ∀ {m : List (String × α)} {d : List (String × α)},
      (∀ kv ∈ m, lookupD d kv.1 = some kv.2) → setMany d m = d := by
  intro m
  induction m with
  | nil => intro d _; rfl
  | cons p t ih =>
    intro d h
    show setMany (setD d p.1 p.2) t = d
    rw [setD_eq_of_lookupD (h p (List.mem_cons_self _ _))]
    exact ih (fun kv hkv => h kv (List.mem_cons_of_mem _ hkv))

theorem setMany_idem {α : Type} {m d : List (String × α)}
    (hnd : (keysOf m).Nodup) : setMany (setMany d m) m = setMany d m :=
  setMany_eq_of_lookupD (fun kv hkv => lookupD_setMany_mem d hnd hkv)

theorem lookupD_of_nodup_mem {α : Type} {k : String} {v : α} :
    ∀ {m : List (String × α)}, (keysOf m).Nodup → (k, v) ∈ m →
      lookupD m k = some v := by
  intro m
  induction m with
  | nil => intro _ h; cases h
  | cons p t ih =>
    intro hnd hmem
    rcases List.mem_cons.mp hmem with rfl | hmem
    · rw [lookupD, if_pos rfl]
    · have hp : p.1 ∉ keysOf t := (List.nodup_cons.mp hnd).1
      have hk : k ∈ keysOf t := List.mem_map_of_mem Prod.fst hmem
      have hne : ¬ p.1 = k := fun hh => hp (hh ▸ hk)
      rw [lookupD, if_neg hne]
      exact ih (List.nodup_cons.mp hnd).2 hmem

theorem setMany_self {α : Type} {m : List (String × α)}
    (hnd : (keysOf m).Nodup) : setMany m m = m :=
  setMany_eq_of_lookupD (fun kv hkv => lookupD_of_nodup_mem hnd hkv)

theorem nodup_keysOf_envMapping (xs : List (PyVal × PyVal)) :
    (keysOf (envMapping xs)).Nodup := by
  suffices h : ∀ (l : List (PyVal × PyVal)) (acc : List (String × String)),
      (keysOf acc).Nodup →
      (keysOf (l.foldl
        (fun acc p => setD acc (pyStr p.1) (if isNone p.2 then "" else pyStr p.2))
        acc)).Nodup by
    exact h xs [] List.nodup_nil
  intro l
  induction l with
  | nil => intro acc h; exact h
  | cons p t ih =>
    intro acc h
    rw [List.foldl_cons]
    exact ih _ (nodup_keysOf_setD _ h)

theorem keysOf_envExprMap (px : String) (xs : List (PyVal × PyVal)) :
    keysOf (envExprMap px (.dict xs)) = keysOf (envMapping xs) := by
  rw [envExprMap, keysOf, keysOf, List.map_map]
  rfl

theorem nodup_keysOf_envExprMap (px : String) (env : PyVal) :
    (keysOf (envExprMap px env)).Nodup := by
  cases env with
  | dict xs =>
    rw [keysOf_envExprMap]
    exact nodup_keysOf_envMapping xs
  | none => exact List.nodup_nil
  | str s => exact List.nodup_nil
  | int n => exact List.nodup_nil
  | list xs => exact List.nodup_nil

theorem applyServiceFields_idem (pe ve : List String) {ee : List (String × String)}
    (im : Option String) (hnd : (keysOf ee).Nodup) (s : Service) :
    applyServiceFields pe ve ee im (applyServiceFields pe ve ee im s) =
      applyServiceFields pe ve ee im s := by
  unfold applyServiceFields
  simp only [Service.mk.injEq]
  refine ⟨?_, ?_, ?_, ?_⟩
  · by_cases h : pe.isEmpty <;> simp [h]
  · by_cases h : ve.isEmpty <;> simp [h]
  · by_cases h : ee.isEmpty
    · simp [h]
    · simp only [h, Bool.false_eq_true, if_false]
      cases s.environment with
      | edict cur =>
        show EnvAttr.edict (setMany (setMany cur ee) ee) = EnvAttr.edict (setMany cur ee)
        rw [setMany_idem hnd]
      | elist items =>
        show EnvAttr.edict (setMany (setMany (listToDict items) ee) ee) =
          EnvAttr.edict (setMany (listToDict items) ee)
        rw [setMany_idem hnd]
      | eother =>
        show EnvAttr.edict (setMany ee ee) = EnvAttr.edict ee
        rw [setMany_self hnd]
  · cases im <;> rfl

theorem applyService_idem (pe ve : List String) {ee : List (String × String)}
    (im : Option String) (hnd : (keysOf ee).Nodup) (sv : ServiceVal) :
    applyService pe ve ee im (applyService pe ve ee im sv) =
      applyService pe ve ee im sv := by
  cases sv with
  | sdict s =>
    show ServiceVal.sdict _ = ServiceVal.sdict _
    rw [applyServiceFields_idem pe ve im hnd s]
  | sother => rfl

theorem lookupD_mapVals {α β : Type} (f : α → β) (d : List (String × α)) (k : String) :
    lookupD (mapVals f d) k = (lookupD d k).map f := by
  induction d with
  | nil => rfl
  | cons p t ih =>
    show lookupD ((p.1, f p.2) :: mapVals f t) k = _
    rw [lookupD, lookupD]
    by_cases hk : p.1 = k
    · rw [if_pos hk, if_pos hk]
      rfl
    · rw [if_neg hk, if_neg hk]
      exact ih

theorem setD_mapVals {α β : Type} (f : α → β) :
    ∀ (d : List (String × α)) (k : String) (v : α),
      setD (mapVals f d) k (f v) = mapVals f (setD d k v) := by
  intro d
  induction d with
  | nil => intro k v; rfl
  | cons p t ih =>
    intro k v
    show setD ((p.1, f p.2) :: mapVals f t) k (f v) = _
    rw [setD, setD]
    by_cases hk : p.1 = k
    · rw [if_pos hk, if_pos hk]
      rfl
    · rw [if_neg hk, if_neg hk]
      show (p.1, f p.2) :: setD (mapVals f t) k (f v) = (p.1, f p.2) :: mapVals f (setD t k v)
      rw [ih]

theorem mapVals_idem {α : Type} {g : α → α} (hg : ∀ v, g (g v) = g v)
    (d : List (String × α)) : mapVals g (mapVals g d) = mapVals g d := by
  induction d with
  | nil => rfl
  | cons p t ih =>
    show (p.1, g (g p.2)) :: mapVals g (mapVals g t) = (p.1, g p.2) :: mapVals g t
    rw [hg, ih]

theorem dictHit_mapVals (pe ve : List String) (ee : List (String × String))
    (im : Option String) (d : List (String × ServiceVal)) (n : String) :
    dictHit (mapVals (applyService pe ve ee im) d) n =
      (dictHit d n).map (applyServiceFields pe ve ee im) := by
  rw [dictHit, dictHit, lookupD_mapVals]
  cases lookupD d n with
  | none => rfl
  | some sv => cases sv <;> rfl

theorem lookupD_buildF_foldl (d : List (String × ServiceVal)) (n : String) :
    ∀ (sel : List String) (acc : List (String × ServiceVal)),
      lookupD (sel.foldl (buildFStep d) acc) n =
        match dictHit d n with
        | some s => if n ∈ sel then some (.sdict s) else lookupD acc n
        | Option.none => lookupD acc n := by
  intro sel
  induction sel with
  | nil =>
    intro acc
    cases hd : dictHit d n <;> simp
  | cons m t ih =>
    intro acc
    rw [List.foldl_cons, ih (buildFStep d acc m)]
    cases hd : dictHit d n with
    | none =>
      cases hdm : dictHit d m with
      | none => rw [buildFStep, hdm]
      | some s =>
        rw [buildFStep, hdm]
        have hne : n ≠ m := fun h => by rw [h, hdm] at hd; cases hd
        exact lookupD_setD_ne _ _ hne
    | some s =>
      show (if n ∈ t then some (ServiceVal.sdict s) else lookupD (buildFStep d acc m) n) =
        if n ∈ m :: t then some (ServiceVal.sdict s) else lookupD acc n
      by_cases hmem : n ∈ m :: t
      · rw [if_pos hmem]
        by_cases hmt : n ∈ t
        · rw [if_pos hmt]
        · rw [if_neg hmt]
          have hnm : n = m := by
            rcases List.mem_cons.mp hmem with h | h
            · exact h
            · exact absurd h hmt
          subst hnm
          rw [buildFStep, hd]
          exact lookupD_setD_self _ _ _
      · rw [if_neg hmem]
        have hmt : n ∉ t := fun h => hmem (List.mem_cons_of_mem _ h)
        rw [if_neg hmt]
        have hnm : n ≠ m := fun h => hmem (h ▸ List.mem_cons_self _ _)
        cases hdm : dictHit d m with
        | none => rw [buildFStep, hdm]
        | some s2 =>
          rw [buildFStep, hdm]
          exact lookupD_setD_ne _ _ hnm

theorem lookupD_buildF (d : List (String × ServiceVal)) (n : String) (sel : List String) :
    lookupD (buildF d sel) n =
      match dictHit d n with
      | some s => if n ∈ sel then some (.sdict s) else Option.none
      | Option.none => Option.none := by
  rw [buildF, lookupD_buildF_foldl]
  cases dictHit d n <;> rfl

theorem dictHit_buildF {n : String} {sel : List String}
    (d : List (String × ServiceVal)) (h : n ∈ sel) :
    dictHit (buildF d sel) n = dictHit d n := by
  rw [dictHit, lookupD_buildF]
  cases hd : dictHit d n with
  | none => rfl
  | some s => simp [h]

theorem buildF_congr {sel : List String} {d₁ d₂ : List (String × ServiceVal)}
    (h : ∀ n ∈ sel, dictHit d₁ n = dictHit d₂ n) :
    ∀ acc, sel.foldl (buildFStep d₁) acc = sel.foldl (buildFStep d₂) acc := by
  induction sel with
  | nil => intro acc; rfl
  | cons m t ih =>
    intro acc
    rw [List.foldl_cons, List.foldl_cons]
    have hstep : buildFStep d₁ acc m = buildFStep d₂ acc m := by
      rw [buildFStep, buildFStep, h m (List.mem_cons_self _ _)]
    rw [hstep]
    exact ih (fun n hn => h n (List.mem_cons_of_mem _ hn)) _

theorem buildF_self (d : List (String × ServiceVal)) (sel : List String) :
    buildF (buildF d sel) sel = buildF d sel :=
  buildF_congr (fun n hn => dictHit_buildF d hn) []

theorem buildF_mapVals (pe ve : List String) (ee : List (String × String))
    (im : Option String) (d : List (String × ServiceVal)) :
    ∀ (sel : List String) (acc : List (String × ServiceVal)),
      sel.foldl (buildFStep (mapVals (applyService pe ve ee im) d))
          (mapVals (applyService pe ve ee im) acc) =
        mapVals (applyService pe ve ee im) (sel.foldl (buildFStep d) acc) := by
  intro sel
  induction sel with
  | nil => intro acc; rfl
  | cons m t ih =>
    intro acc
    rw [List.foldl_cons, List.foldl_cons]
    have hstep : buildFStep (mapVals (applyService pe ve ee im) d)
        (mapVals (applyService pe ve ee im) acc) m =
        mapVals (applyService pe ve ee im) (buildFStep d acc m) := by
      rw [buildFStep, buildFStep, dictHit_mapVals]
      cases hdm : dictHit d m with
      | none => rfl
      | some s =>
        show setD (mapVals (applyService pe ve ee im) acc) m
            (.sdict (applyServiceFields pe ve ee im s)) = _
        have : ServiceVal.sdict (applyServiceFields pe ve ee im s) =
            applyService pe ve ee im (.sdict s) := rfl
        rw [this, setD_mapVals]
    rw [hstep]
    exact ih _

theorem buildF_eq_nil_imp {d : List (String × ServiceVal)} {sel : List String}
    (h : buildF d sel = []) : ∀ n ∈ sel, dictHit d n = Option.none := by
  intro n hn
  cases hd : dictHit d n with
  | none => rfl
  | some s =>
    have hl := lookupD_buildF d n sel
    rw [h, hd] at hl
    simp [lookupD, hn] at hl

theorem buildF_nil_of {d : List (String × ServiceVal)} {sel : List String}
    (h : ∀ n ∈ sel, dictHit d n = Option.none) : buildF d sel = [] := by
  rw [buildF]
  suffices haux : ∀ (t : List String), (∀ n ∈ t, dictHit d n = Option.none) →
      ∀ acc, t.foldl (buildFStep d) acc = acc by
    exact haux sel h []
  intro t
  induction t with
  | nil => intro _ acc; rfl
  | cons m u ih =>
    intro ht acc
    rw [List.foldl_cons, buildFStep, ht m (List.mem_cons_self _ _)]
    exact ih (fun n hn => ht n (List.mem_cons_of_mem _ hn)) acc

theorem filterServices_of_sel_nil {sel : List String}
    (svs : List (String × ServiceVal)) (h : sel.isEmpty = true) :
    filterServices svs sel = svs := by
  rw [filterServices, if_pos h]

theorem filterServices_of_buildF_nil {sel : List String}
    {svs : List (String × ServiceVal)} (h : ¬ sel.isEmpty = true)
    (h2 : buildF svs sel = []) : filterServices svs sel = svs := by
  rw [filterServices, if_neg h]
  show (if (buildF svs sel).isEmpty then svs else buildF svs sel) = svs
  rw [h2]
  rfl

theorem filterServices_of_buildF_ne {sel : List String}
    {svs : List (String × ServiceVal)} (h : ¬ sel.isEmpty = true)
    (h2 : buildF svs sel ≠ []) : filterServices svs sel = buildF svs sel := by
  rw [filterServices, if_neg h]
  show (if (buildF svs sel).isEmpty then svs else buildF svs sel) = buildF svs sel
  rw [if_neg (by simpa [List.isEmpty_iff] using h2)]

theorem buildF_of_mapVals (pe ve : List String) (ee : List (String × String))
    (im : Option String) (d : List (String × ServiceVal)) (sel : List String) :
    buildF (mapVals (applyService pe ve ee im) d) sel =
      mapVals (applyService pe ve ee im) (buildF d sel) :=
  buildF_mapVals pe ve ee im d sel []

theorem rewriteCore_idem (pe ve : List String) {ee : List (String × String)}
    (im : Option String) (hnd : (keysOf ee).Nodup) (sel : List String)
    (svs : List (String × ServiceVal)) :
    rewriteCore pe ve ee im sel (rewriteCore pe ve ee im sel svs) =
      rewriteCore pe ve ee im sel svs := by
  have hidem := applyService_idem pe ve im hnd
  by_cases hsel : sel.isEmpty = true
  · rw [rewriteCore, rewriteCore, filterServices_of_sel_nil _ hsel,
      filterServices_of_sel_nil _ hsel]
    exact mapVals_idem hidem svs
  · by_cases hF : buildF svs sel = []
    · have h1 : filterServices svs sel = svs := filterServices_of_buildF_nil hsel hF
      have hFR : buildF (mapVals (applyService pe ve ee im) svs) sel = [] := by
        apply buildF_nil_of
        intro n hn
        rw [dictHit_mapVals, buildF_eq_nil_imp hF n hn]
        rfl
      rw [rewriteCore, rewriteCore, h1,
        filterServices_of_buildF_nil hsel hFR]
      exact mapVals_idem hidem svs
    · have h1 : filterServices svs sel = buildF svs sel :=
        filterServices_of_buildF_ne hsel hF
      have hFR : buildF (mapVals (applyService pe ve ee im) (buildF svs sel)) sel =
          mapVals (applyService pe ve ee im) (buildF svs sel) := by
        rw [buildF_of_mapVals, buildF_self]
      have hFRne : buildF (mapVals (applyService pe ve ee im) (buildF svs sel)) sel ≠ [] := by
        rw [hFR]
        simp only [mapVals, ne_eq, List.map_eq_nil_iff]
        exact hF
      rw [rewriteCore, rewriteCore, h1,
        filterServices_of_buildF_ne hsel hFRne, hFR]
      exact mapVals_idem hidem _

theorem filterServices_ne_nil {sel : List String}
    {svs : List (String × ServiceVal)} (h : svs ≠ []) :
    filterServices svs sel ≠ [] := by
  by_cases hsel : sel.isEmpty = true
  · rw [filterServices_of_sel_nil _ hsel]
    exact h
  · by_cases hF : buildF svs sel = []
    · rw [filterServices_of_buildF_nil hsel hF]
      exact h
    · rw [filterServices_of_buildF_ne hsel hF]
      exact hF

theorem rewrite_services_ne_nil (cfg : Config) (nm : String)
    {svs : List (String × ServiceVal)} (h : svs ≠ []) :
    rewrite_services cfg nm svs ≠ [] := by
  rw [rewrite_services, rewriteCore]
  simp only [mapVals, ne_eq, List.map_eq_nil_iff]
  exact filterServices_ne_nil h

/-- C9. Rewriting a compose document twice in a row with the same
manifest produces the same document after the second pass as after the
first: the selected subset is stable, ports/volumes are replaced by the
same expression lists, the environment overlay re-applies the same
key/value pairs onto a mapping that already holds them, and the image
override re-writes the same string — the rewrite is idempotent, not
additive. -/
theorem rewrite_compose_with_env_idempotent (cfg : Config) (nm : String)
    (doc : Option ComposeDoc) :
    rewrite_compose_with_env cfg nm (rewrite_compose_with_env cfg nm doc) =
      rewrite_compose_with_env cfg nm doc := by
  cases doc with
  | none => rfl
  | some d =>
    by_cases h : d.services.isEmpty = true
    · rw [rewrite_compose_with_env, if_pos h, rewrite_compose_with_env, if_pos h]
    · rw [rewrite_compose_with_env, if_neg h]
      have hsvne : d.services ≠ [] := by
        simpa [List.isEmpty_iff] using h
      have hRne : rewrite_services cfg nm d.services ≠ [] :=
        rewrite_services_ne_nil cfg nm hsvne
      rw [rewrite_compose_with_env]
      rw [if_neg (by simpa [List.isEmpty_iff] using hRne)]
      have hidem : rewrite_services cfg nm (rewrite_services cfg nm d.services) =
          rewrite_services cfg nm d.services := by
        rw [rewrite_services, rewrite_services]
        exact rewriteCore_idem _ _ _
          (nodup_keysOf_envExprMap ( to_var_prefix nm) cfg.env) _ _
      rw [hidem]

theorem lookupD_of_dictHit {d : List (String × ServiceVal)} {n : String} {s : Service}
    (h : dictHit d n = some s) : lookupD d n = some (.sdict s) := by
  rw [dictHit] at h
  cases hl : lookupD d n with
  | none => rw [hl] at h; cases h
  | some sv =>
    rw [hl] at h
    cases sv with
    | sdict s0 => injection h with h; rw [h]
    | sother => cases h

theorem lookupD_filterServices {sel : List String}
    {svs : List (String × ServiceVal)} {n : String} {sv : ServiceVal}
    (h : lookupD (filterServices svs sel) n = some sv) :
    lookupD svs n = some sv := by
  by_cases hsel : sel.isEmpty = true
  · rwa [filterServices_of_sel_nil _ hsel] at h
  · by_cases hF : buildF svs sel = []
    · rwa [filterServices_of_buildF_nil hsel hF] at h
    · rw [filterServices_of_buildF_ne hsel hF] at h
      rw [lookupD_buildF] at h
      cases hd : dictHit svs n with
      | none => rw [hd] at h; cases h
      | some s =>
        rw [hd] at h
        have h' : (if n ∈ sel then some (ServiceVal.sdict s) else Option.none) = some sv := h
        by_cases hn : n ∈ sel
        · rw [if_pos hn] at h'
          injection h' with h'
          rw [← h']
          exact lookupD_of_dictHit hd
        · rw [if_neg hn] at h'
          cases h'

theorem svPorts_applyService_nil (ve : List String) (ee : List (String × String))
    (im : Option String) (sv : ServiceVal) :
    svPorts (applyService [] ve ee im sv) = svPorts sv := by
  cases sv <;> rfl

theorem svVolumes_applyService_nil (pe : List String) (ee : List (String × String))
    (im : Option String) (sv : ServiceVal) :
    svVolumes (applyService pe [] ee im sv) = svVolumes sv := by
  cases sv <;> rfl

/-- C10. A ports or volumes parse failure never escapes
`rewrite_compose_with_env`: the failing field is treated as an empty
pair list, so every service present in the rewritten document descends
from an original service whose `ports` (resp. `volumes`) value it
keeps unchanged, and the rewrite still completes and persists the
document. -/
theorem rewrite_compose_swallows_parse_failures (cfg : Config) (nm : String)
    (d : ComposeDoc) (hne : d.services.isEmpty = false) :
    rewrite_compose_with_env cfg nm (some d) =
      some ⟨rewrite_services cfg nm d.services⟩ ∧
    ∀ n sv, lookupD (rewrite_services cfg nm d.services) n = some sv →
      ∃ sv0, lookupD d.services n = some sv0 ∧
        ((∃ e, parse_ports cfg.ports = .error e) → svPorts sv = svPorts sv0) ∧
        ((∃ e, parse_volumes cfg.volumes = .error e) → svVolumes sv = svVolumes sv0) := by
  constructor
  · rw [rewrite_compose_with_env, if_neg (by rw [hne]; exact Bool.false_ne_true)]
  · intro n sv h
    rw [rewrite_services, rewriteCore, lookupD_mapVals] at h
    cases hl : lookupD (filterServices d.services (selectedServiceNames cfg)) n with
    | none => rw [hl] at h; cases h
    | some sv1 =>
      rw [hl] at h
      injection h with h
      refine ⟨sv1, lookupD_filterServices hl, ?_, ?_⟩
      · rintro ⟨e, he⟩
        have hpairs : portsPairsOf cfg = [] := by
          unfold portsPairsOf
          rw [he]
        have hpe : portsExprList ( to_var_prefix nm) (portsPairsOf cfg).length = [] := by
          rw [hpairs]
          rfl
        rw [← h, hpe]
        exact svPorts_applyService_nil _ _ _ sv1
      · rintro ⟨e, he⟩
        have hpairs : volumesPairsOf cfg = [] := by
          unfold volumesPairsOf
          rw [he]
        have hve : volsExprList ( to_var_prefix nm) (volumesPairsOf cfg).length = [] := by
          rw [hpairs]
          rfl
        rw [← h, hve]
        exact svVolumes_applyService_nil _ _ _ sv1

/-- C10, witness: with a manifest whose single port entry is malformed
(and everything else absent), the rewrite still succeeds and the `web`
service keeps its original `ports` and `volumes`. -/
theorem rewrite_compose_swallows_parse_failures_witness :
    ∃ sv0, lookupD docWeb.services "web" = some sv0 ∧
      svPorts (ServiceVal.sdict ⟨some ["8080:80"], some ["/a:/b"], .edict [("K", "v")], some "img"⟩) =
        svPorts sv0 := by
  obtain ⟨sv0, h1, h2, h3⟩ :=
    (rewrite_compose_swallows_parse_failures cfgPortsBad "x" docWeb rfl).2 "web"
      (ServiceVal.sdict ⟨some ["8080:80"], some ["/a:/b"], .edict [("K", "v")], some "img"⟩)
      rfl
  exact ⟨sv0, h1, h2 ⟨"Unrecognized port format: <entry>", rfl⟩⟩

end HPone
